import Mathlib

/-!
Verification development for the mobile inspection app (single source file
App.tsx).  The core persistence/indexing layer is shallowly embedded below:

* JavaScript objects used as string-keyed records (the two structured
  collections) are modelled as association lists (`RecordMap`).
* The inspection-entry save path (photo blob writes, entry construction,
  append-and-sort with the Date-based comparator) is modelled with explicit
  state passing; fallible blob writes are driven by an explicit failure
  oracle, and a thrown exception is an `Except.error` result.
* JavaScript `Date` parsing of the strings the code builds
  (date "T" time ":00") is modelled by a proleptic-Gregorian day-number
  computation (fixed UTC offset; a constant clock offset does not affect
  the ordering the code relies on).
* The SHA-256 digest and base64 encoding used by the passcode gate are
  implemented in full so the passcode contract can be evaluated.
* JSON.parse is modelled by a fuel-based recursive-descent parser used by
  the load functions, which fall back to an empty mapping on failure.
-/

set_option maxRecDepth 4096

/-! ## JS string-keyed records (objects) -/

/-- Association-list model of a JavaScript object used as a string-keyed
record (`Record<string, T>`).  Keys are unique in any state produced by the
operations below; an update keeps the key's position and a fresh key is
appended, matching JS property-order semantics. -/
abbrev RecordMap (α : Type) : Type := List (String × α)

namespace RecordMap

/-- Property read `m[k]`, `undefined` as `none`. -/
def rget {α : Type} (m : RecordMap α) (k : String) : Option α :=
  match m with
  | [] => none
  | (k', v') :: rest => if k' = k then some v' else rget rest k

/-- Property write `m[k] = v`: replaces the first binding of `k` in place,
or appends a new binding. -/
def rset {α : Type} (m : RecordMap α) (k : String) (v : α) : RecordMap α :=
  match m with
  | [] => [(k, v)]
  | (k', v') :: rest => if k' = k then (k, v) :: rest else (k', v') :: rset rest k v

/-- Number of keys in the record. -/
def rsize {α : Type} (m : RecordMap α) : Nat := m.length

@[simp] theorem rget_rset_self {α : Type} (m : RecordMap α) (k : String) (v : α) :
    rget (rset m k v) k = some v := by
  induction m with
  | nil => simp [rget, rset]
  | cons hd tl ih =>
    obtain ⟨k', v'⟩ := hd
    by_cases h : k' = k <;> simp [rget, rset, h, ih]

theorem rget_rset_ne {α : Type} (m : RecordMap α) (k k' : String) (v : α)
    (h : k' ≠ k) : rget (rset m k v) k' = rget m k' := by
  induction m with
  | nil =>
    simp only [rset, rget]
    rw [if_neg (fun h' : k = k' => h h'.symm)]
  | cons hd tl ih =>
    obtain ⟨k₀, v₀⟩ := hd
    by_cases hk : k₀ = k
    · subst hk
      simp only [rset, if_pos rfl, rget]
      rw [if_neg (fun h' : k₀ = k' => h h'.symm), if_neg (fun h' : k₀ = k' => h h'.symm)]
    · simp only [rset, if_neg hk, rget]
      by_cases hk' : k₀ = k'
      · rw [if_pos hk', if_pos hk']
      · rw [if_neg hk', if_neg hk', ih]

theorem rsize_rset_of_mem {α : Type} (m : RecordMap α) (k : String) (v : α)
    (h : (rget m k).isSome) : rsize (rset m k v) = rsize m := by
  induction m with
  | nil => simp [rget] at h
  | cons hd tl ih =>
    obtain ⟨k₀, v₀⟩ := hd
    by_cases hk : k₀ = k
    · simp [rset, hk, rsize, List.length]
    · simp only [rget, hk, if_false] at h
      simp [rset, hk, rsize, List.length] at ih ⊢
      exact ih h

end RecordMap

export RecordMap (rget rset rsize)

/-! ## Decimal rendering of naturals

Model of the JavaScript number-to-string conversion applied by template
literals to the nonnegative integers that appear in the source
(photo index `i` and the millisecond timestamp feeding the entry id). -/

/-- Decimal digit values of `n`, most significant first. -/
def decimalDigits (n : Nat) : List Nat :=
  if h : n < 10 then [n]
  else
    have : n / 10 < n := Nat.div_lt_self (by omega) (by omega)
    decimalDigits (n / 10) ++ [n % 10]

/-- Evaluate a most-significant-first digit list back to a natural. -/
def fromDigits (ds : List Nat) : Nat := ds.foldl (fun a d => a * 10 + d) 0

theorem fromDigits_append (ds : List Nat) (d : Nat) :
    fromDigits (ds ++ [d]) = fromDigits ds * 10 + d := by
  simp [fromDigits, List.foldl_append]

theorem fromDigits_decimalDigits (n : Nat) : fromDigits (decimalDigits n) = n := by
  induction n using Nat.strong_induction_on with
  | _ n ih =>
    rw [decimalDigits]
    by_cases h : n < 10
    · simp [h, fromDigits]
    · have hd : n / 10 < n := Nat.div_lt_self (by omega) (by omega)
      simp only [h, dif_neg, not_false_iff]
      rw [fromDigits_append, ih (n / 10) hd]
      omega

theorem decimalDigits_injective : Function.Injective decimalDigits := by
  intro a b h
  have := fromDigits_decimalDigits a
  rw [h, fromDigits_decimalDigits] at this
  omega

theorem decimalDigits_lt_ten (n : Nat) : ∀ d ∈ decimalDigits n, d < 10 := by
  induction n using Nat.strong_induction_on with
  | _ n ih =>
    rw [decimalDigits]
    by_cases h : n < 10
    · simp [h]
    · have hd : n / 10 < n := Nat.div_lt_self (by omega) (by omega)
      simp only [h, dif_neg, not_false_iff]
      intro d hdm
      rcases List.mem_append.mp hdm with h1 | h1
      · exact ih (n / 10) hd d h1
      · simp at h1; omega

/-- Decimal character of a digit value (digit values are below ten). -/
def digitCh (d : Nat) : Char := Char.ofNat (48 + d)

/-- Model of the JS template-literal stringification of a nonnegative
integer: its decimal digits. -/
def jsNatRepr (n : Nat) : String := ⟨(decimalDigits n).map digitCh⟩

theorem digitCh_inj (a b : Nat) (ha : a < 10) (hb : b < 10)
    (h : digitCh a = digitCh b) : a = b := by
  interval_cases a <;> interval_cases b <;> simp_all [digitCh]

theorem digitCh_ne_slash (d : Nat) (hd : d < 10) : digitCh d ≠ '/' := by
  interval_cases d <;> decide

theorem map_digitCh_inj (l₁ l₂ : List Nat)
    (h₁ : ∀ d ∈ l₁, d < 10) (h₂ : ∀ d ∈ l₂, d < 10)
    (h : l₁.map digitCh = l₂.map digitCh) : l₁ = l₂ := by
  induction l₁ generalizing l₂ with
  | nil => cases l₂ <;> simp_all
  | cons a t ih =>
    cases l₂ with
    | nil => simp_all
    | cons b t' =>
      simp only [List.map_cons, List.cons.injEq] at h
      have ha := h₁ a (by simp)
      have hb := h₂ b (by simp)
      have := digitCh_inj a b ha hb h.1
      subst this
      simp only [List.cons.injEq, true_and]
      exact ih t' (fun d hd => h₁ d (List.mem_cons_of_mem _ hd))
        (fun d hd => h₂ d (List.mem_cons_of_mem _ hd)) h.2

theorem jsNatRepr_injective : Function.Injective jsNatRepr := by
  intro a b h
  have hdata : (decimalDigits a).map digitCh = (decimalDigits b).map digitCh := by
    have := congrArg String.data h
    simpa [jsNatRepr] using this
  exact decimalDigits_injective
    (map_digitCh_inj _ _ (decimalDigits_lt_ten a) (decimalDigits_lt_ten b) hdata)

theorem jsNatRepr_chars_ne_slash (n : Nat) :
    ∀ c ∈ (jsNatRepr n).data, c ≠ '/' := by
  intro c hc
  simp only [jsNatRepr] at hc
  rcases List.mem_map.mp hc with ⟨d, hd, rfl⟩
  exact digitCh_ne_slash d (decimalDigits_lt_ten n d hd)

/-- Leading-whitespace removal on character lists. -/
def dropWhileWs : List Char → List Char
  | [] => []
  | c :: rest => if c.isWhitespace then dropWhileWs rest else c :: rest

/-- Model of JS String.prototype.trim: strip whitespace from both ends
(restricted to the ASCII whitespace the app's inputs can contain):
reversing and dropping the leading run removes the trailing run, and a
final drop removes the leading run. -/
def jsTrim (s : String) : String :=
  ⟨dropWhileWs ((dropWhileWs s.data.reverse).reverse)⟩

theorem jsTrim_strips_both_ends :
    jsTrim "  abc  " = "abc" ∧ jsTrim " x" = "x" ∧ jsTrim "x " = "x" ∧
    jsTrim "10234" = "10234" ∧ jsTrim "   " = "" := by
  refine ⟨?_, ?_, ?_, ?_, ?_⟩ <;> decide

/-! ## Date strings and the Date comparator model

The entry comparator in the source evaluates
JavaScript Date parse of (date "T" time ":00") via getTime, i.e. the string
template date plus time mapped to milliseconds.  We model that parse for the
proleptic Gregorian calendar under a fixed UTC offset (the offset is a
constant, which does not affect the ordering the comparator induces). -/

/-- Whether a character is a decimal digit (ASCII 48 to 57). -/
def isDigitCh (c : Char) : Bool := 48 ≤ c.toNat && c.toNat ≤ 57

/-- Numeric value of a decimal digit character. -/
def digitVal (c : Char) : Nat := c.toNat - 48

/-- Parse a date string in the exact form YYYY-MM-DD (format only;
range checks are performed by the Date model itself). -/
def parseDate (s : String) : Option (Nat × Nat × Nat) :=
  match s.data with
  | [y1, y2, y3, y4, c1, m1, m2, c2, d1, d2] =>
    if c1 = '-' ∧ c2 = '-' ∧
        ([y1, y2, y3, y4, m1, m2, d1, d2].all isDigitCh) then
      some (digitVal y1 * 1000 + digitVal y2 * 100 + digitVal y3 * 10 + digitVal y4,
            digitVal m1 * 10 + digitVal m2,
            digitVal d1 * 10 + digitVal d2)
    else none
  | _ => none

/-- Parse a time string in the exact form HH:MM. -/
def parseTime (s : String) : Option (Nat × Nat) :=
  match s.data with
  | [h1, h2, c, m1, m2] =>
    if c = ':' ∧ ([h1, h2, m1, m2].all isDigitCh) then
      some (digitVal h1 * 10 + digitVal h2, digitVal m1 * 10 + digitVal m2)
    else none
  | _ => none

/-- Gregorian leap-year test. -/
def isLeap (y : Nat) : Bool := (y % 4 == 0 && y % 100 != 0) || y % 400 == 0

/-- Length of a month in the Gregorian calendar. -/
def daysInMonth (y m : Nat) : Nat :=
  if m = 2 then (if isLeap y then 29 else 28)
  else if m = 4 ∨ m = 6 ∨ m = 9 ∨ m = 11 then 30
  else 31

/-- Days in year y strictly before month m (months are 1-based). -/
def daysBeforeMonth (y : Nat) : Nat → Nat
  | 0 => 0
  | 1 => 0
  | m + 2 => daysBeforeMonth y (m + 1) + daysInMonth y (m + 1)

/-- Number of leap years in the interval [0, y). -/
def leapsBefore (y : Nat) : Int :=
  (((y + 3) / 4 : Nat) : Int) - (((y + 99) / 100 : Nat) : Int) + (((y + 399) / 400 : Nat) : Int)

/-- First day of year y, counted in days relative to the epoch 1970-01-01
(719528 is the day count from 0000-01-01 to the epoch). -/
def yearStart (y : Nat) : Int := 365 * (y : Int) + leapsBefore y - 719528

/-- Day number of a calendar date relative to the epoch 1970-01-01. -/
def dayNumber (y m d : Nat) : Int :=
  yearStart y + (daysBeforeMonth y m : Int) + (d : Int) - 1

/-- Range validity of a calendar date, as enforced by the Date parser. -/
def validDate (y m d : Nat) : Bool :=
  decide (1 ≤ m) && decide (m ≤ 12) && decide (1 ≤ d) && decide (d ≤ daysInMonth y m)

/-- Range validity of a time of day, as enforced by the Date parser. -/
def validTime (h mi : Nat) : Bool := decide (h ≤ 23) && decide (mi ≤ 59)

/-- Model of getTime on the Date built from a valid date and time string
pair: milliseconds relative to the epoch (fixed UTC offset). -/
def msVal (y m d h mi : Nat) : Int :=
  dayNumber y m d * 86400000 + ((h * 3600000 + mi * 60000 : Nat) : Int)

/-- Model of the source expression new Date(date "T" time ":00") followed by
getTime: parse both strings, validate ranges, convert to milliseconds;
none plays the role of an invalid Date (NaN). -/
def dateTimeMs (date time : String) : Option Int :=
  match parseDate date, parseTime time with
  | some (y, m, d), some (h, mi) =>
    if validDate y m d && validTime h mi then some (msVal y m d h mi) else none
  | _, _ => none

theorem daysBeforeMonth_succ (y m : Nat) (hm : 1 ≤ m) :
    daysBeforeMonth y (m + 1) = daysBeforeMonth y m + daysInMonth y m := by
  match m, hm with
  | m + 1, _ => rfl

theorem daysBeforeMonth_le_succ (y m : Nat) :
    daysBeforeMonth y m ≤ daysBeforeMonth y (m + 1) := by
  match m with
  | 0 => exact Nat.le_refl _
  | m + 1 => exact Nat.le_add_right _ _

theorem daysBeforeMonth_mono (y : Nat) {a b : Nat} (h : a ≤ b) :
    daysBeforeMonth y a ≤ daysBeforeMonth y b :=
  monotone_nat_of_le_succ (daysBeforeMonth_le_succ y) h

theorem daysBeforeMonth_13 (y : Nat) :
    daysBeforeMonth y 13 = 365 + (if isLeap y then 1 else 0) := by
  cases h : isLeap y <;> simp [daysBeforeMonth, daysInMonth, h]

theorem leapsBefore_succ (y : Nat) :
    leapsBefore (y + 1) = leapsBefore y + (if isLeap y then 1 else 0) := by
  have e4 : y + 1 + 3 = (y + 3) + 1 := by omega
  have e100 : y + 1 + 99 = (y + 99) + 1 := by omega
  have e400 : y + 1 + 399 = (y + 399) + 1 := by omega
  have h4 := Nat.succ_div (y + 3) 4
  have h100 := Nat.succ_div (y + 99) 100
  have h400 := Nat.succ_div (y + 399) 400
  have d4 : (4 ∣ y + 3 + 1) ↔ 4 ∣ y := by constructor <;> intro h <;> omega
  have d100 : (100 ∣ y + 99 + 1) ↔ 100 ∣ y := by constructor <;> intro h <;> omega
  have d400 : (400 ∣ y + 399 + 1) ↔ 400 ∣ y := by constructor <;> intro h <;> omega
  simp only [d4] at h4
  simp only [d100] at h100
  simp only [d400] at h400
  unfold leapsBefore
  rw [e4, e100, e400, h4, h100, h400]
  have m4 : y % 4 = 0 ↔ 4 ∣ y := by omega
  have m100 : y % 100 = 0 ↔ 100 ∣ y := by omega
  have m400 : y % 400 = 0 ↔ 400 ∣ y := by omega
  by_cases l4 : 4 ∣ y <;> by_cases l100 : 100 ∣ y <;> by_cases l400 : 400 ∣ y <;>
    simp [isLeap, m4.mpr, m100, m400, l4, l100, l400] <;> omega

theorem yearStart_succ (y : Nat) :
    yearStart (y + 1) = yearStart y + (daysBeforeMonth y 13 : Int) := by
  unfold yearStart
  rw [leapsBefore_succ, daysBeforeMonth_13]
  cases h : isLeap y <;> simp [h] <;> omega

theorem yearStart_le {a b : Nat} (h : a ≤ b) : yearStart a ≤ yearStart b := by
  have step : ∀ n : Nat, yearStart n ≤ yearStart (n + 1) := by
    intro n
    rw [yearStart_succ]
    have hnn : (0 : Int) ≤ (daysBeforeMonth n 13 : Int) := Int.ofNat_nonneg _
    omega
  exact monotone_nat_of_le_succ step h

theorem dayNumber_lt {y1 m1 d1 y2 m2 d2 : Nat}
    (v1 : validDate y1 m1 d1 = true) (v2 : validDate y2 m2 d2 = true)
    (h : y1 < y2 ∨ (y1 = y2 ∧ (m1 < m2 ∨ (m1 = m2 ∧ d1 < d2)))) :
    dayNumber y1 m1 d1 < dayNumber y2 m2 d2 := by
  simp only [validDate, Bool.and_eq_true, decide_eq_true_eq] at v1 v2
  obtain ⟨⟨⟨hm1a, hm1b⟩, hd1a⟩, hd1b⟩ := v1
  obtain ⟨⟨⟨hm2a, hm2b⟩, hd2a⟩, hd2b⟩ := v2
  rcases h with hy | ⟨rfl, h⟩
  · -- different years: the first date is before the start of year y1 + 1,
    -- which is at most the start of year y2
    have hb1 : daysBeforeMonth y1 m1 + d1 ≤ daysBeforeMonth y1 13 := by
      have h1 : daysBeforeMonth y1 m1 + d1 ≤ daysBeforeMonth y1 (m1 + 1) := by
        rw [daysBeforeMonth_succ y1 m1 hm1a]; omega
      have h2 : daysBeforeMonth y1 (m1 + 1) ≤ daysBeforeMonth y1 13 :=
        daysBeforeMonth_mono y1 (by omega)
      omega
    have hys : yearStart (y1 + 1) = yearStart y1 + (daysBeforeMonth y1 13 : Int) :=
      yearStart_succ y1
    have hyle : yearStart (y1 + 1) ≤ yearStart y2 := yearStart_le (by omega)
    unfold dayNumber
    omega
  · rcases h with hm | ⟨rfl, hd⟩
    · -- same year, different months
      have h1 : daysBeforeMonth y1 m1 + d1 ≤ daysBeforeMonth y1 (m1 + 1) := by
        rw [daysBeforeMonth_succ y1 m1 hm1a]; omega
      have h2 : daysBeforeMonth y1 (m1 + 1) ≤ daysBeforeMonth y1 m2 :=
        daysBeforeMonth_mono y1 (by omega)
      unfold dayNumber
      omega
    · -- same year and month, different days
      unfold dayNumber
      omega

theorem msVal_lt {y1 m1 d1 h1 mi1 y2 m2 d2 h2 mi2 : Nat}
    (v1 : validDate y1 m1 d1 = true) (v2 : validDate y2 m2 d2 = true)
    (t1 : validTime h1 mi1 = true) (t2 : validTime h2 mi2 = true)
    (h : (y1, m1, d1) ≠ (y2, m2, d2) ∧
          (y1 < y2 ∨ (y1 = y2 ∧ (m1 < m2 ∨ (m1 = m2 ∧ d1 ≤ d2)))) ∨
         (y1, m1, d1) = (y2, m2, d2) ∧
          (h1 < h2 ∨ (h1 = h2 ∧ mi1 < mi2))) :
    msVal y1 m1 d1 h1 mi1 < msVal y2 m2 d2 h2 mi2 := by
  simp only [validTime, Bool.and_eq_true, decide_eq_true_eq] at t1 t2
  rcases h with ⟨hne, hle⟩ | ⟨heq, ht⟩
  · have hlt : dayNumber y1 m1 d1 < dayNumber y2 m2 d2 := by
      apply dayNumber_lt v1 v2
      rcases hle with hy | ⟨rfl, hm | ⟨rfl, hd⟩⟩
      · exact Or.inl hy
      · exact Or.inr ⟨rfl, Or.inl hm⟩
      · rcases Nat.lt_or_ge d1 d2 with hlt | hge
        · exact Or.inr ⟨rfl, Or.inr ⟨rfl, hlt⟩⟩
        · exfalso
          apply hne
          have hde : d1 = d2 := by omega
          rw [hde]
    unfold msVal
    omega
  · rw [Prod.mk.injEq, Prod.mk.injEq] at heq
    obtain ⟨rfl, rfl, rfl⟩ := heq
    unfold msVal
    omega

/-! ## Chronological order on parsed (date, time) composite keys -/

/-- Parsed composite (date, time) key of an entry. -/
structure DateTime where
  year : Nat
  month : Nat
  day : Nat
  hour : Nat
  minute : Nat
deriving DecidableEq, Repr

/-- Strict chronological order: date first, then time (newest = greatest). -/
def DateTime.lt (a b : DateTime) : Prop :=
  a.year < b.year ∨ (a.year = b.year ∧ (a.month < b.month ∨ (a.month = b.month ∧
    (a.day < b.day ∨ (a.day = b.day ∧ (a.hour < b.hour ∨ (a.hour = b.hour ∧
      a.minute < b.minute)))))))

/-- Chronological order, allowing equality. -/
def DateTime.le (a b : DateTime) : Prop := DateTime.lt a b ∨ a = b

instance decidableDateTimeLt : DecidableRel DateTime.lt := fun a b => by
  unfold DateTime.lt
  infer_instance

instance decidableDateTimeLe : DecidableRel DateTime.le := fun a b => by
  unfold DateTime.le
  infer_instance

/-- Range validity of a parsed key. -/
def DateTime.valid (t : DateTime) : Prop :=
  validDate t.year t.month t.day = true ∧ validTime t.hour t.minute = true

/-- Millisecond value of a parsed key under the Date model. -/
def DateTime.ms (t : DateTime) : Int := msVal t.year t.month t.day t.hour t.minute

theorem DateTime.lt_or_eq_or_gt (a b : DateTime) :
    DateTime.lt a b ∨ a = b ∨ DateTime.lt b a := by
  obtain ⟨y1, m1, d1, h1, mi1⟩ := a
  obtain ⟨y2, m2, d2, h2, mi2⟩ := b
  simp only [DateTime.lt, DateTime.mk.injEq]
  omega

theorem DateTime.ms_lt_of_lt {a b : DateTime} (ha : a.valid) (hb : b.valid)
    (h : DateTime.lt a b) : a.ms < b.ms := by
  obtain ⟨y1, m1, d1, h1, mi1⟩ := a
  obtain ⟨y2, m2, d2, h2, mi2⟩ := b
  obtain ⟨hv1, ht1⟩ := ha
  obtain ⟨hv2, ht2⟩ := hb
  simp only [DateTime.lt] at h
  apply msVal_lt hv1 hv2 ht1 ht2
  simp only [ne_eq, Prod.mk.injEq]
  omega

theorem DateTime.ms_le_iff {a b : DateTime} (ha : a.valid) (hb : b.valid) :
    a.ms ≤ b.ms ↔ DateTime.le a b := by
  constructor
  · intro h
    rcases DateTime.lt_or_eq_or_gt a b with hlt | heq | hgt
    · exact Or.inl hlt
    · exact Or.inr heq
    · have := DateTime.ms_lt_of_lt hb ha hgt
      omega
  · rintro (hlt | rfl)
    · exact le_of_lt (DateTime.ms_lt_of_lt ha hb hlt)
    · exact le_refl _

/-! ## Data model and operations of the persistence core -/

/-- Project metadata record (source type ProjectMeta). -/
structure ProjectMeta where
  id : String
  address : String
  scope : String
  createdAt : Nat
  updatedAt : Nat
deriving DecidableEq, Repr

/-- Inspection entry record (source type InspectionEntry). -/
structure InspectionEntry where
  id : String
  date : String
  time : String
  notes : String
  photoKeys : List String
  createdAt : Nat
  updatedAt : Nat
deriving DecidableEq, Repr

/-- Raw photo bytes stored in the blob store. -/
abbrev Blob := List Nat

/-- Combined persisted state: the two structured collections plus the
IndexedDB photo store. -/
structure AppState where
  projects : RecordMap ProjectMeta
  inspections : RecordMap (List InspectionEntry)
  blobs : RecordMap Blob

/-- Embedding of saveProject on the projects collection: trims the form id,
rejects an empty id (none), otherwise upserts, keeping a previous createdAt
and stamping updatedAt with the current time. -/
def saveProjectMap (projects : RecordMap ProjectMeta)
    (formId formAddress formScope : String) (now : Nat) :
    Option (RecordMap ProjectMeta) :=
  let id := jsTrim formId
  if id = "" then none
  else
    let prev := rget projects id
    some (rset projects id
      { id := id, address := jsTrim formAddress, scope := jsTrim formScope,
        createdAt := (prev.map ProjectMeta.createdAt).getD now,
        updatedAt := now })

/-- State-level saveProject: on validation failure (empty id) the state is
untouched; otherwise only the projects collection is replaced. -/
def saveProject (st : AppState) (formId formAddress formScope : String)
    (now : Nat) : AppState :=
  match saveProjectMap st.projects formId formAddress formScope now with
  | none => st
  | some m => { st with projects := m }

/-- Millisecond key an entry is compared by: the Date model applied to its
date and time fields (0 stands in for an invalid Date; the theorems below
only concern valid entries). -/
def msKeyD (e : InspectionEntry) : Int := (dateTimeMs e.date e.time).getD 0

/-- Boolean order backing the source comparator (a, b) => tb - ta: a may
come before b exactly when the comparator is nonpositive, i.e. key b ≤ key a
(newest first). -/
def entryLE (a b : InspectionEntry) : Bool := decide (msKeyD b ≤ msKeyD a)

/-- Stable sort of an entry list with the descending-key comparator, the
model of Array.prototype.sort with the source comparator (JS sort is
stable). -/
def sortEntries (l : List InspectionEntry) : List InspectionEntry :=
  l.mergeSort entryLE

/-- Blob key derived for photo i of an entry. -/
def photoKey (projectId entryId : String) (i : Nat) : String :=
  projectId ++ "/inspections/" ++ entryId ++ "/photo-" ++ jsNatRepr i

/-- Embedding of the photo-write loop of saveInspectionEntry, starting at
index i: writes each blob under its derived key via idbSet; a failed write
(putFails names the failing indices) aborts the loop, keeping the writes
already transacted.  Returns the collected keys (none on failure) and the
resulting blob store. -/
def savePhotos (projectId entryId : String) (photos : List Blob) (i : Nat)
    (blobs : RecordMap Blob) (putFails : Nat → Bool) :
    Option (List String) × RecordMap Blob :=
  match photos with
  | [] => (some [], blobs)
  | f :: rest =>
    if putFails i then (none, blobs)
    else
      let key := photoKey projectId entryId i
      let blobs' := rset blobs key f
      match savePhotos projectId entryId rest (i + 1) blobs' putFails with
      | (some keys, b) => (some (key :: keys), b)
      | (none, b) => (none, b)

/-- Embedding of async saveInspectionEntry.  The Date.now() reads are
explicit parameters (tId feeds the entry id, tNow the createdAt/updatedAt
stamps); idbSet failures are driven by the putFails oracle, and a rejected
write propagates as an error result carrying the state reached so far
(blob writes already transacted remain; the structured store is not
touched). -/
def saveInspectionEntry (st : AppState) (activeProjectId : Option String)
    (entryDate entryTime notesInput : String) (entryPhotos : List Blob)
    (tId tNow : Nat) (putFails : Nat → Bool) :
    Except String Unit × AppState :=
  match activeProjectId with
  | none => (.ok (), st)
  | some pid =>
    if pid = "" then (.ok (), st)
    else if entryDate = "" ∨ entryTime = "" then (.error "Enter date and time.", st)
    else
      let entryId := jsNatRepr tId
      match savePhotos pid entryId entryPhotos 0 st.blobs putFails with
      | (none, blobs') => (.error "idbSet rejected", { st with blobs := blobs' })
      | (some keys, blobs') =>
        let entry : InspectionEntry :=
          { id := entryId, date := entryDate, time := entryTime,
            notes := jsTrim notesInput, photoKeys := keys,
            createdAt := tNow, updatedAt := tNow }
        let newList := sortEntries ((rget st.inspections pid).getD [] ++ [entry])
        (.ok (), { st with blobs := blobs',
                           inspections := rset st.inspections pid newList })

/-- Embedding of the InspectionList timeline query: the project's list (or
the empty list when the project has no entries), filtered by exact string
equality on the date field when a filter date is active (null and the empty
string are both falsy, hence no filter). -/
def inspectionList (inspections : RecordMap (List InspectionEntry))
    (projectId : String) (filterDate : Option String) : List InspectionEntry :=
  let list := (rget inspections projectId).getD []
  match filterDate with
  | none => list
  | some d => if d = "" then list else list.filter (fun e => e.date == d)

/-- Result of one photoURLFromKey call: the returned handle, the cache
afterwards, and the blob-store reads (idbGet calls) the call performed. -/
structure ResolveResult where
  url : String
  cache : RecordMap String
  reads : List String
deriving DecidableEq, Repr

/-- Embedding of photoURLFromKey: return the cached handle when present;
otherwise read the blob store, returning the empty handle (without caching)
when the key is absent, and caching a fresh object URL when present.
createObjectURL stands for URL.createObjectURL. -/
def photoURLFromKey (cache : RecordMap String) (blobs : RecordMap Blob)
    (createObjectURL : Blob → String) (key : String) : ResolveResult :=
  match rget cache key with
  | some u => { url := u, cache := cache, reads := [] }
  | none =>
    match rget blobs key with
    | none => { url := "", cache := cache, reads := [key] }
    | some b =>
      let url := createObjectURL b
      { url := url, cache := rset cache key url, reads := [key] }

/-! ## Passcode gate: SHA-256 digest, base64, and the auth handlers -/

/-- Truncation to a 32-bit word. -/
def w32 (n : Nat) : Nat := n % 4294967296

/-- Right rotation of a 32-bit word. -/
def rotr32 (x n : Nat) : Nat := w32 ((x >>> n) ||| (x <<< (32 - n)))

/-- SHA-256 big sigma 0. -/
def bigSigma0 (x : Nat) : Nat := (rotr32 x 2) ^^^ (rotr32 x 13) ^^^ (rotr32 x 22)

/-- SHA-256 big sigma 1. -/
def bigSigma1 (x : Nat) : Nat := (rotr32 x 6) ^^^ (rotr32 x 11) ^^^ (rotr32 x 25)

/-- SHA-256 small sigma 0. -/
def smallSigma0 (x : Nat) : Nat := (rotr32 x 7) ^^^ (rotr32 x 18) ^^^ (x >>> 3)

/-- SHA-256 small sigma 1. -/
def smallSigma1 (x : Nat) : Nat := (rotr32 x 17) ^^^ (rotr32 x 19) ^^^ (x >>> 10)

/-- SHA-256 choice function (the complement is a xor with the 32-bit mask). -/
def chF (x y z : Nat) : Nat := (x &&& y) ^^^ ((4294967295 ^^^ x) &&& z)

/-- SHA-256 majority function. -/
def majF (x y z : Nat) : Nat := (x &&& y) ^^^ (x &&& z) ^^^ (y &&& z)

/-- SHA-256 round constants. -/
def sha256K : List Nat :=
  [1116352408, 1899447441, 3049323471, 3921009573,
   961987163, 1508970993, 2453635748, 2870763221,
   3624381080, 310598401, 607225278, 1426881987,
   1925078388, 2162078206, 2614888103, 3248222580,
   3835390401, 4022224774, 264347078, 604807628,
   770255983, 1249150122, 1555081692, 1996064986,
   2554220882, 2821834349, 2952996808, 3210313671,
   3336571891, 3584528711, 113926993, 338241895,
   666307205, 773529912, 1294757372, 1396182291,
   1695183700, 1986661051, 2177026350, 2456956037,
   2730485921, 2820302411, 3259730800, 3345764771,
   3516065817, 3600352804, 4094571909, 275423344,
   430227734, 506948616, 659060556, 883997877,
   958139571, 1322822218, 1537002063, 1747873779,
   1955562222, 2024104815, 2227730452, 2361852424,
   2428436474, 2756734187, 3204031479, 3329325298]

/-- SHA-256 initial hash state. -/
def sha256H0 : List Nat :=
  [1779033703, 3144134277, 1013904242, 2773480762,
   1359893119, 2600822924, 528734635, 1541459225]

/-- Pad a byte message per SHA-256: append 0x80, zeros to 56 mod 64 bytes,
then the bit length as eight big-endian bytes. -/
def sha256Pad (msg : List Nat) : List Nat :=
  let len := msg.length
  let bitLen := len * 8
  let padZeros := (64 + 56 - (len + 1) % 64) % 64
  msg ++ [0x80] ++ List.replicate padZeros 0 ++
    (List.range 8).map (fun k => (bitLen >>> ((7 - k) * 8)) % 256)

/-- Split a byte list into 64-byte chunks (fuel-based structural
recursion; the fuel is the list length, and each step consumes at least
one element). -/
def chunks64Go : Nat → List Nat → List (List Nat)
  | 0, _ => []
  | _, [] => []
  | fuel + 1, x :: rest => ((x :: rest).take 64) :: chunks64Go fuel ((x :: rest).drop 64)

/-- Split a byte list into 64-byte chunks. -/
def chunks64 (l : List Nat) : List (List Nat) := chunks64Go l.length l

/-- Sixteen big-endian 32-bit words of one 64-byte block. -/
def blockWords (block : List Nat) : List Nat :=
  (List.range 16).map (fun j =>
    (block.getD (4 * j) 0) * 16777216 + (block.getD (4 * j + 1) 0) * 65536 +
      (block.getD (4 * j + 2) 0) * 256 + block.getD (4 * j + 3) 0)

/-- Extend sixteen words to the 64-word message schedule. -/
def msgSchedule (ws : List Nat) : Array Nat :=
  (List.range 48).foldl (fun arr t =>
    let i := t + 16
    arr.push (w32 (smallSigma1 (arr.getD (i - 2) 0) + arr.getD (i - 7) 0 +
      smallSigma0 (arr.getD (i - 15) 0) + arr.getD (i - 16) 0))) ws.toArray

/-- SHA-256 compression of one block into the running hash state. -/
def compressBlock (hs : List Nat) (block : List Nat) : List Nat :=
  let w := msgSchedule (blockWords block)
  let step := fun (st : Nat × Nat × Nat × Nat × Nat × Nat × Nat × Nat) (t : Nat) =>
    let (a, b, c, d, e, f, g, h) := st
    let t1 := w32 (h + bigSigma1 e + chF e f g + sha256K.getD t 0 + w.getD t 0)
    let t2 := w32 (bigSigma0 a + majF a b c)
    (w32 (t1 + t2), a, b, c, w32 (d + t1), e, f, g)
  let init := (hs.getD 0 0, hs.getD 1 0, hs.getD 2 0, hs.getD 3 0,
               hs.getD 4 0, hs.getD 5 0, hs.getD 6 0, hs.getD 7 0)
  let fin := (List.range 64).foldl step init
  match fin with
  | (a, b, c, d, e, f, g, h) =>
    [w32 (hs.getD 0 0 + a), w32 (hs.getD 1 0 + b), w32 (hs.getD 2 0 + c),
     w32 (hs.getD 3 0 + d), w32 (hs.getD 4 0 + e), w32 (hs.getD 5 0 + f),
     w32 (hs.getD 6 0 + g), w32 (hs.getD 7 0 + h)]

/-- SHA-256 digest of a byte message, as 32 bytes. -/
def sha256 (msg : List Nat) : List Nat :=
  let final := (chunks64 (sha256Pad msg)).foldl compressBlock sha256H0
  (final.map (fun wv => [wv >>> 24 % 256, wv >>> 16 % 256, wv >>> 8 % 256, wv % 256])).flatten

/-- UTF-8 bytes of one character (model of TextEncoder). -/
def charUtf8 (c : Char) : List Nat :=
  let n := c.toNat
  if n < 0x80 then [n]
  else if n < 0x800 then [0xC0 + n / 64, 0x80 + n % 64]
  else if n < 0x10000 then [0xE0 + n / 4096, 0x80 + n / 64 % 64, 0x80 + n % 64]
  else [0xF0 + n / 262144, 0x80 + n / 4096 % 64, 0x80 + n / 64 % 64, 0x80 + n % 64]

/-- UTF-8 bytes of a string (model of TextEncoder.encode). -/
def utf8Bytes (s : String) : List Nat := (s.data.map charUtf8).flatten

/-- Base64 alphabet. -/
def base64Chars : List Char :=
  "ABCDEFGHIJKLMNOPQRSTUVWXYZabcdefghijklmnopqrstuvwxyz0123456789+/".data

/-- Character of a 6-bit group. -/
def b64Ch (i : Nat) : Char := base64Chars.getD i 'A'

/-- Base64 encoding of a byte list with padding (model of btoa applied to
the binary string of the digest bytes). -/
def base64Go (bytes : List Nat) : List Char :=
  match bytes with
  | [] => []
  | [b0] =>
    let n := b0 * 65536
    [b64Ch (n >>> 18), b64Ch (n >>> 12 % 64), '=', '=']
  | [b0, b1] =>
    let n := b0 * 65536 + b1 * 256
    [b64Ch (n >>> 18), b64Ch (n >>> 12 % 64), b64Ch (n >>> 6 % 64), '=']
  | b0 :: b1 :: b2 :: rest =>
    let n := b0 * 65536 + b1 * 256 + b2
    [b64Ch (n >>> 18), b64Ch (n >>> 12 % 64), b64Ch (n >>> 6 % 64), b64Ch (n % 64)] ++
      base64Go rest

/-- Embedding of sha256Base64: SHA-256 of the UTF-8 passcode text, encoded
as base64 printable text. -/
def sha256Base64 (input : String) : String := ⟨base64Go (sha256 (utf8Bytes input))⟩

/-! ## Auth state machine -/

/-- Views of the app shell (only auth and home matter to the gate). -/
inductive View where
  | auth | home | data | inspection | inspectionProject | report
deriving DecidableEq, Repr

/-- Auth-relevant state: the stored digest (localStorage), the hasPasscode
flag, the in-memory session flag, and the current view. -/
structure AuthState where
  stored : Option String
  hasPasscode : Bool
  authed : Bool
  view : View
deriving DecidableEq, Repr

/-- State at process start: the session flag is never persisted, the view
starts at the gate, and hasPasscode reflects whether a digest is stored. -/
def initAuthState (stored : Option String) : AuthState :=
  { stored := stored, hasPasscode := stored.isSome, authed := false, view := .auth }

/-- Embedding of handleSetPasscode: rejects an empty or short (< 4)
passcode and a mismatched confirmation with no state change; otherwise
stores the digest and enters the home view with the session flag set. -/
def handleSetPasscode (st : AuthState) (passcodeInput passcodeConfirm : String) :
    AuthState :=
  if passcodeInput = "" ∨ passcodeInput.length < 4 then st
  else if passcodeInput ≠ passcodeConfirm then st
  else { stored := some (sha256Base64 passcodeInput), hasPasscode := true,
         authed := true, view := .home }

/-- Verification predicate extracted from handleSignIn: an empty input, a
missing credential, or a digest mismatch all fail. -/
def verifyPasscode (stored : Option String) (input : String) : Bool :=
  if input = "" then false
  else
    match stored with
    | none => false
    | some s => sha256Base64 input == s

/-- Embedding of handleSignIn: on successful verification the session flag
is set and the view moves home; otherwise no state change. -/
def handleSignIn (st : AuthState) (input : String) : AuthState :=
  if verifyPasscode st.stored input then { st with authed := true, view := .home }
  else st

/-- Embedding of handleSignOut. -/
def handleSignOut (st : AuthState) : AuthState :=
  { st with authed := false, view := .auth }

/-! ## JSON.parse model and the structured-store load functions -/

/-- Parsed JSON value: numbers keep their raw token (their numeric
interpretation is irrelevant here), strings are decoded to code units. -/
inductive JsValue where
  | null
  | bool (b : Bool)
  | num (raw : List Char)
  | str (units : List Nat)
  | arr (elems : List JsValue)
  | obj (fields : List (List Nat × JsValue))

/-- JSON insignificant whitespace. -/
def jsonWs (c : Char) : Bool := c = ' ' || c = '\t' || c = '\n' || c = '\r'

/-- Drop leading JSON whitespace. -/
def skipWs : List Char → List Char
  | [] => []
  | c :: rest => if jsonWs c then skipWs rest else c :: rest

/-- Value of a hex digit, or none. -/
def hexVal (c : Char) : Option Nat :=
  if 48 ≤ c.toNat ∧ c.toNat ≤ 57 then some (c.toNat - 48)
  else if 97 ≤ c.toNat ∧ c.toNat ≤ 102 then some (c.toNat - 87)
  else if 65 ≤ c.toNat ∧ c.toNat ≤ 70 then some (c.toNat - 55)
  else none

/-- Parse the body of a JSON string literal (opening quote already
consumed): decodes escapes, rejects raw control characters, returns the
code units and the remainder after the closing quote. -/
def parseJString (fuel : Nat) (cs : List Char) : Option (List Nat × List Char) :=
  match fuel with
  | 0 => none
  | fuel + 1 =>
    match cs with
    | [] => none
    | '"' :: rest => some ([], rest)
    | '\\' :: esc =>
      match esc with
      | '"' :: rest => (parseJString fuel rest).map (fun p => (34 :: p.1, p.2))
      | '\\' :: rest => (parseJString fuel rest).map (fun p => (92 :: p.1, p.2))
      | '/' :: rest => (parseJString fuel rest).map (fun p => (47 :: p.1, p.2))
      | 'b' :: rest => (parseJString fuel rest).map (fun p => (8 :: p.1, p.2))
      | 'f' :: rest => (parseJString fuel rest).map (fun p => (12 :: p.1, p.2))
      | 'n' :: rest => (parseJString fuel rest).map (fun p => (10 :: p.1, p.2))
      | 'r' :: rest => (parseJString fuel rest).map (fun p => (13 :: p.1, p.2))
      | 't' :: rest => (parseJString fuel rest).map (fun p => (9 :: p.1, p.2))
      | 'u' :: h1 :: h2 :: h3 :: h4 :: rest =>
        match hexVal h1, hexVal h2, hexVal h3, hexVal h4 with
        | some a, some b, some c, some d =>
          (parseJString fuel rest).map (fun p =>
            ((a * 4096 + b * 256 + c * 16 + d) :: p.1, p.2))
        | _, _, _, _ => none
      | _ => none
    | c :: rest =>
      if c.toNat < 32 then none
      else (parseJString fuel rest).map (fun p => (c.toNat :: p.1, p.2))

/-- Parse the fraction part of a JSON number (possibly empty). -/
def parseJFrac (cs : List Char) : Option (List Char × List Char) :=
  match cs with
  | '.' :: r =>
    match List.span (fun d => d.isDigit) r with
    | ([], _) => none
    | (ds, r2) => some ('.' :: ds, r2)
  | _ => some ([], cs)

/-- Parse the exponent part of a JSON number (possibly empty). -/
def parseJExp (cs : List Char) : Option (List Char × List Char) :=
  match cs with
  | c :: r =>
    if c = 'e' ∨ c = 'E' then
      let (sgn, r1) := match r with
        | s :: r1 => if s = '+' ∨ s = '-' then ([s], r1) else (([] : List Char), s :: r1)
        | [] => ([], ([] : List Char))
      match List.span (fun d => d.isDigit) r1 with
      | ([], _) => none
      | (ds, r2) => some (c :: (sgn ++ ds), r2)
    else some ([], cs)
  | [] => some ([], cs)

/-- Parse a JSON number token (grammar: -?(0 or nonzero digits) frac? exp?). -/
def parseJNumber (cs : List Char) : Option (List Char × List Char) :=
  let (neg, cs1) := match cs with
    | '-' :: r => ((['-'] : List Char), r)
    | _ => ([], cs)
  match cs1 with
  | '0' :: r =>
    match parseJFrac r with
    | none => none
    | some (fr, r2) =>
      match parseJExp r2 with
      | none => none
      | some (ex, r3) => some (neg ++ '0' :: (fr ++ ex), r3)
  | c :: r =>
    if c.isDigit ∧ c ≠ '0' then
      let (ds, r1) := List.span (fun d => d.isDigit) r
      match parseJFrac r1 with
      | none => none
      | some (fr, r2) =>
        match parseJExp r2 with
        | none => none
        | some (ex, r3) => some (neg ++ c :: (ds ++ fr ++ ex), r3)
    else none
  | [] => none

mutual

/-- Fuel-based recursive-descent parse of one JSON value (leading
whitespace allowed), returning the value and the remainder. -/
def parseJValue (fuel : Nat) (cs : List Char) : Option (JsValue × List Char) :=
  match fuel with
  | 0 => none
  | fuel + 1 =>
    match skipWs cs with
    | 'n' :: 'u' :: 'l' :: 'l' :: r => some (.null, r)
    | 't' :: 'r' :: 'u' :: 'e' :: r => some (.bool true, r)
    | 'f' :: 'a' :: 'l' :: 's' :: 'e' :: r => some (.bool false, r)
    | '"' :: r => (parseJString fuel r).map (fun p => (.str p.1, p.2))
    | '[' :: r =>
      match skipWs r with
      | ']' :: r2 => some (.arr [], r2)
      | r1 => (parseJElems fuel r1).map (fun p => (.arr p.1, p.2))
    | '\x7b' :: r =>
      match skipWs r with
      | '\x7d' :: r2 => some (.obj [], r2)
      | r1 => (parseJMembers fuel r1).map (fun p => (.obj p.1, p.2))
    | cs1 => (parseJNumber cs1).map (fun p => (.num p.1, p.2))

/-- Parse one or more comma-separated array elements and the closing
bracket. -/
def parseJElems (fuel : Nat) (cs : List Char) : Option (List JsValue × List Char) :=
  match fuel with
  | 0 => none
  | fuel + 1 =>
    match parseJValue fuel cs with
    | none => none
    | some (v, r) =>
      match skipWs r with
      | ',' :: r2 => (parseJElems fuel r2).map (fun p => (v :: p.1, p.2))
      | ']' :: r2 => some ([v], r2)
      | _ => none

/-- Parse one or more comma-separated object members and the closing
brace. -/
def parseJMembers (fuel : Nat) (cs : List Char) :
    Option (List (List Nat × JsValue) × List Char) :=
  match fuel with
  | 0 => none
  | fuel + 1 =>
    match skipWs cs with
    | '"' :: r =>
      match parseJString fuel r with
      | none => none
      | some (key, r1) =>
        match skipWs r1 with
        | ':' :: r2 =>
          match parseJValue fuel r2 with
          | none => none
          | some (v, r3) =>
            match skipWs r3 with
            | ',' :: r4 => (parseJMembers fuel r4).map (fun p => ((key, v) :: p.1, p.2))
            | '\x7d' :: r4 => some ([(key, v)], r4)
            | _ => none
        | _ => none
    | _ => none

end

/-- Model of JSON.parse: parse one value and require only trailing
whitespace; none models a thrown SyntaxError. -/
def jsonParse (s : String) : Option JsValue :=
  match parseJValue (s.data.length + 1) s.data with
  | some (v, r) => if skipWs r = [] then some v else none
  | none => none

/-- Embedding of loadProjects: an absent payload yields the empty object,
and an unparsable payload (JSON.parse throwing) is caught, also yielding
the empty object. -/
def loadProjects (raw : Option String) : JsValue :=
  match raw with
  | none => .obj []
  | some s => (jsonParse s).getD (.obj [])

/-- Embedding of loadInspections, structurally identical to loadProjects
but reading the inspections payload. -/
def loadInspections (raw : Option String) : JsValue :=
  match raw with
  | none => .obj []
  | some s => (jsonParse s).getD (.obj [])

/-! ## Claim theorems -/

/-- C8: loading either structured collection (projects or inspections) from
an absent underlying payload, or from any stored string that does not
parse, returns the empty mapping rather than failing. -/
theorem load_corrupt_or_absent_empty (s : String) (h : jsonParse s = none) :
    loadProjects none = JsValue.obj [] ∧ loadInspections none = JsValue.obj [] ∧
    loadProjects (some s) = JsValue.obj [] ∧ loadInspections (some s) = JsValue.obj [] := by
  refine ⟨rfl, rfl, ?_, ?_⟩ <;> simp [loadProjects, loadInspections, h]

/-- Witness for C8 at the concrete unparsable payload consisting of a
single opening brace. -/
theorem load_corrupt_or_absent_empty_witness :
    jsonParse "\x7b" = none ∧
      (loadProjects none = JsValue.obj [] ∧ loadInspections none = JsValue.obj [] ∧
       loadProjects (some "\x7b") = JsValue.obj [] ∧
       loadInspections (some "\x7b") = JsValue.obj []) :=
  ⟨rfl, load_corrupt_or_absent_empty "\x7b" rfl⟩

/-- C3: for a non-empty (trimmed) project ID, saving twice with the same ID
updates in place: both saves succeed, the collection's size does not grow
between the saves, the record's createdAt after the second save equals the
createdAt produced by the first save, updatedAt is refreshed to the second
save's time, and createdAt is at most updatedAt (given a monotone clock and
any prior record being older than the first save). -/
theorem saveProject_twice_upserts (projects : RecordMap ProjectMeta)
    (formId a1 s1 a2 s2 : String) (t1 t2 : Nat)
    (hid : jsTrim formId ≠ "") (hmono : t1 ≤ t2)
    (hinv : ∀ p, rget projects (jsTrim formId) = some p → p.createdAt ≤ t1) :
    ∃ m1 m2, saveProjectMap projects formId a1 s1 t1 = some m1 ∧
      saveProjectMap m1 formId a2 s2 t2 = some m2 ∧
      rsize m2 = rsize m1 ∧
      ∃ p1 p2, rget m1 (jsTrim formId) = some p1 ∧ rget m2 (jsTrim formId) = some p2 ∧
        p2.createdAt = p1.createdAt ∧ p2.updatedAt = t2 ∧
        p2.createdAt ≤ p2.updatedAt := by
  unfold saveProjectMap
  simp only [if_neg hid]
  refine ⟨_, _, rfl, rfl, ?_, ?_⟩
  · apply RecordMap.rsize_rset_of_mem
    rw [RecordMap.rget_rset_self]
    rfl
  · refine ⟨_, _, RecordMap.rget_rset_self .., RecordMap.rget_rset_self .., ?_, rfl, ?_⟩
    · simp
    · simp only [RecordMap.rget_rset_self, Option.map_some, Option.getD_some]
      cases hp : rget projects (jsTrim formId) with
      | none => simpa using hmono
      | some p => simpa using le_trans (hinv p hp) hmono

/-- Witness for C3: a fresh collection, ID "10234", times 1 then 2. -/
theorem saveProject_twice_upserts_witness :
    jsTrim "10234" ≠ "" ∧ (1 : Nat) ≤ 2 ∧
    (∃ m1 m2, saveProjectMap [] "10234" "123 Main St" "scope" 1 = some m1 ∧
      saveProjectMap m1 "10234" "456 Oak Ave" "scope2" 2 = some m2 ∧
      rsize m2 = rsize m1 ∧
      ∃ p1 p2, rget m1 (jsTrim "10234") = some p1 ∧
        rget m2 (jsTrim "10234") = some p2 ∧
        p2.createdAt = p1.createdAt ∧ p2.updatedAt = 2 ∧
        p2.createdAt ≤ p2.updatedAt) :=
  ⟨by decide, by decide,
    saveProject_twice_upserts [] "10234" "123 Main St" "scope" "456 Oak Ave" "scope2" 1 2
      (by decide) (by decide) (by intro p hp; simp [RecordMap.rget] at hp)⟩

/-- C7: the timeline query with a (non-empty) filter date returns exactly
the entries of the unfiltered timeline whose date field equals the filter
by string equality, preserving the unfiltered order (any pairwise ordering
of the unfiltered list carries over); an absent project yields the empty
list, and a date with zero matches yields the empty list. -/
theorem inspectionList_filter_exact (inspections : RecordMap (List InspectionEntry))
    (projectId d : String) (hd : d ≠ "") :
    inspectionList inspections projectId (some d) =
      (inspectionList inspections projectId none).filter (fun e => e.date == d) ∧
    (∀ R : InspectionEntry → InspectionEntry → Prop,
      (inspectionList inspections projectId none).Pairwise R →
      (inspectionList inspections projectId (some d)).Pairwise R) ∧
    (rget inspections projectId = none →
      inspectionList inspections projectId (some d) = []) ∧
    ((∀ e ∈ inspectionList inspections projectId none, e.date ≠ d) →
      inspectionList inspections projectId (some d) = []) := by
  refine ⟨?_, ?_, ?_, ?_⟩
  · simp [inspectionList, hd]
  · intro R h
    simp only [inspectionList, if_neg hd] at *
    exact h.sublist (List.filter_sublist _)
  · intro h
    simp [inspectionList, h, hd]
  · intro h
    simp only [inspectionList, if_neg hd] at *
    exact List.filter_eq_nil_iff.mpr (fun e he hdate => h e he (by simpa using hdate))

/-- Witness for C7 on a concrete two-entry list with one matching date. -/
theorem inspectionList_filter_exact_witness :
    ("2024-03-01" : String) ≠ "" ∧
    (inspectionList
        [("10234", [{ id := "2", date := "2024-03-01", time := "14:30", notes := "",
                      photoKeys := [], createdAt := 2, updatedAt := 2 },
                    { id := "1", date := "2024-02-28", time := "09:00", notes := "",
                      photoKeys := [], createdAt := 1, updatedAt := 1 }])]
        "10234" (some "2024-03-01") =
      (inspectionList
        [("10234", [{ id := "2", date := "2024-03-01", time := "14:30", notes := "",
                      photoKeys := [], createdAt := 2, updatedAt := 2 },
                    { id := "1", date := "2024-02-28", time := "09:00", notes := "",
                      photoKeys := [], createdAt := 1, updatedAt := 1 }])]
        "10234" none).filter (fun e => e.date == "2024-03-01")) :=
  ⟨by decide,
    (inspectionList_filter_exact _ "10234" "2024-03-01" (by decide)).1⟩

/-- C10 (frame property): saving a project touches neither the inspections
collection nor the blob store and changes no project record other than the
trimmed form ID; submitting an inspection entry for a project leaves the
entire projects collection unchanged and every other project's entry list
unchanged (regardless of validation or photo-write outcome). -/
theorem save_frame_properties (st : AppState) (formId a s : String) (now : Nat)
    (pid entryDate entryTime notesInput : String) (photos : List Blob)
    (tId tNow : Nat) (putFails : Nat → Bool) :
    ((saveProject st formId a s now).inspections = st.inspections ∧
     (saveProject st formId a s now).blobs = st.blobs ∧
     ∀ k, k ≠ jsTrim formId →
       rget (saveProject st formId a s now).projects k = rget st.projects k) ∧
    ((saveInspectionEntry st (some pid) entryDate entryTime notesInput photos
        tId tNow putFails).2.projects = st.projects ∧
     ∀ q, q ≠ pid →
       rget (saveInspectionEntry st (some pid) entryDate entryTime notesInput photos
          tId tNow putFails).2.inspections q = rget st.inspections q) := by
  refine ⟨⟨?_, ?_, ?_⟩, ?_, ?_⟩
  · unfold saveProject
    cases saveProjectMap st.projects formId a s now <;> rfl
  · unfold saveProject
    cases saveProjectMap st.projects formId a s now <;> rfl
  · intro k hk
    unfold saveProject saveProjectMap
    by_cases hid : jsTrim formId = ""
    · rw [if_pos hid]
    · rw [if_neg hid]
      exact RecordMap.rget_rset_ne _ _ _ _ hk
  · simp only [saveInspectionEntry]
    by_cases hpid : pid = ""
    · rw [if_pos hpid]
    · rw [if_neg hpid]
      by_cases hdt : entryDate = "" ∨ entryTime = ""
      · rw [if_pos hdt]
      · rw [if_neg hdt]
        split <;> rfl
  · intro q hq
    simp only [saveInspectionEntry]
    by_cases hpid : pid = ""
    · rw [if_pos hpid]
    · rw [if_neg hpid]
      by_cases hdt : entryDate = "" ∨ entryTime = ""
      · rw [if_pos hdt]
      · rw [if_neg hdt]
        split
        · rfl
        · exact RecordMap.rget_rset_ne _ _ _ _ hq


/-- C4: the passcode contract.  Setting a passcode shorter than 4
characters, or with a mismatched confirmation, is rejected with no state
change (so no credential is stored); after setting "abcd", verification of
"abcd" succeeds and verification of "wrong" fails (verification compares
the SHA-256 digest of the input with the stored digest). -/
theorem passcode_contract (st1 st2 : AuthState) (shortPc confirmA pcB confirmB : String)
    (hshort : shortPc.length < 4) (hmism : pcB ≠ confirmB) :
    handleSetPasscode st1 shortPc confirmA = st1 ∧
    handleSetPasscode st2 pcB confirmB = st2 ∧
    verifyPasscode (handleSetPasscode (initAuthState none) "abcd" "abcd").stored "abcd"
      = true ∧
    verifyPasscode (handleSetPasscode (initAuthState none) "abcd" "abcd").stored "wrong"
      = false := by
  refine ⟨?_, ?_, ?_, ?_⟩
  · unfold handleSetPasscode
    rw [if_pos (Or.inr hshort)]
  · unfold handleSetPasscode
    by_cases h1 : pcB = "" ∨ pcB.length < 4
    · rw [if_pos h1]
    · rw [if_neg h1, if_pos hmism]
  · decide
  · decide

/-- Witness for C4 at short passcode "ab" and mismatched pair
("abcd", "abce"), starting from the no-credential state. -/
theorem passcode_contract_witness :
    ("ab" : String).length < 4 ∧ ("abcd" : String) ≠ "abce" ∧
    (handleSetPasscode (initAuthState none) "ab" "ab" = initAuthState none ∧
     handleSetPasscode (initAuthState none) "abcd" "abce" = initAuthState none ∧
     verifyPasscode (handleSetPasscode (initAuthState none) "abcd" "abcd").stored "abcd"
       = true ∧
     verifyPasscode (handleSetPasscode (initAuthState none) "abcd" "abcd").stored "wrong"
       = false) :=
  ⟨by decide, by decide,
    passcode_contract (initAuthState none) (initAuthState none) "ab" "ab" "abcd" "abce"
      (by decide) (by decide)⟩

/-- C5 counterexample: contrary to the claim that a successful
setCredential from the NoCredential state transitions to Locked (not
Unlocked), the code sets the session flag and enters the home view
immediately, with no subsequent verify required. -/
theorem setPasscode_enters_unlocked_counterexample :
    (handleSetPasscode (initAuthState none) "abcd" "abcd").authed = true ∧
    (handleSetPasscode (initAuthState none) "abcd" "abcd").view = View.home := by
  constructor <;> rfl

/-- C5 amended: a successful setCredential stores the digest and
transitions directly to Unlocked (session flag set, home view) rather than
Locked; the Unlocked state is not persisted — every process start re-enters
the gate view with the session flag cleared (Locked when a credential is
stored, NoCredential otherwise), requiring re-verification. -/
theorem setPasscode_transitions (st : AuthState) (input confirm : String)
    (hlen : 4 ≤ input.length) (hconf : input = confirm) :
    (handleSetPasscode st input confirm).authed = true ∧
    (handleSetPasscode st input confirm).view = View.home ∧
    (handleSetPasscode st input confirm).stored = some (sha256Base64 input) ∧
    (∀ sd, (initAuthState sd).authed = false ∧ (initAuthState sd).view = View.auth) := by
  have hne : input ≠ "" := by
    intro h
    rw [h] at hlen
    simp at hlen
  unfold handleSetPasscode
  rw [if_neg (by push_neg; exact ⟨hne, by omega⟩), if_neg (by simpa using hconf)]
  exact ⟨rfl, rfl, rfl, fun sd => ⟨rfl, rfl⟩⟩

/-- Witness for the amended C5 at passcode "abcd" from the no-credential
start state. -/
theorem setPasscode_transitions_witness :
    4 ≤ ("abcd" : String).length ∧
    ((handleSetPasscode (initAuthState none) "abcd" "abcd").authed = true ∧
     (handleSetPasscode (initAuthState none) "abcd" "abcd").view = View.home ∧
     (handleSetPasscode (initAuthState none) "abcd" "abcd").stored
        = some (sha256Base64 "abcd") ∧
     (∀ sd, (initAuthState sd).authed = false ∧ (initAuthState sd).view = View.auth)) :=
  ⟨by decide, setPasscode_transitions (initAuthState none) "abcd" "abcd" (by decide) rfl⟩

theorem savePhotos_fails (projectId entryId : String) (photos : List Blob) (i0 : Nat)
    (blobs : RecordMap Blob) (putFails : Nat → Bool)
    (h : ∃ j, j < photos.length ∧ putFails (i0 + j) = true) :
    (savePhotos projectId entryId photos i0 blobs putFails).1 = none := by
  induction photos generalizing i0 blobs with
  | nil =>
    obtain ⟨j, hj, _⟩ := h
    simp at hj
  | cons f rest ih =>
    obtain ⟨j, hj, hfail⟩ := h
    by_cases h0 : putFails i0 = true
    · simp [savePhotos, h0]
    · have hj0 : j ≠ 0 := by
        intro hj0
        rw [hj0, Nat.add_zero] at hfail
        exact h0 hfail
      obtain ⟨j', rfl⟩ := Nat.exists_eq_succ_of_ne_zero hj0
      have hrec := ih (i0 + 1) (rset blobs (photoKey projectId entryId i0) f)
        ⟨j', by simpa using hj, by rw [← hfail]; congr 1; omega⟩
      simp only [savePhotos, h0, Bool.false_eq_true, if_false]
      rcases hsp : savePhotos projectId entryId rest (i0 + 1)
          (rset blobs (photoKey projectId entryId i0) f) putFails with ⟨fst, snd⟩
      rw [hsp] at hrec
      simp at hrec
      subst hrec
      simp

/-- C2: if any individual photo blob write fails during entry creation
(with an active non-empty project and non-empty date and time, so the
operation reaches the write loop), the operation fails and the structured
inspections store is completely unchanged — the entry does not appear under
any project. -/
theorem saveEntry_photo_failure_aborts (st : AppState) (pid d t n : String)
    (photos : List Blob) (tId tNow : Nat) (putFails : Nat → Bool)
    (hpid : pid ≠ "") (hd : d ≠ "") (ht : t ≠ "")
    (hfail : ∃ j, j < photos.length ∧ putFails j = true) :
    (∃ msg, (saveInspectionEntry st (some pid) d t n photos tId tNow putFails).1
        = .error msg) ∧
    (saveInspectionEntry st (some pid) d t n photos tId tNow putFails).2.inspections
        = st.inspections := by
  have hsp := savePhotos_fails pid (jsNatRepr tId) photos 0 st.blobs putFails
    (by simpa using hfail)
  simp only [saveInspectionEntry, if_neg hpid]
  rw [if_neg (by push_neg; exact ⟨hd, ht⟩)]
  rcases hw : savePhotos pid (jsNatRepr tId) photos 0 st.blobs putFails with ⟨fst, snd⟩
  rw [hw] at hsp
  simp at hsp
  subst hsp
  exact ⟨⟨"idbSet rejected", rfl⟩, rfl⟩

/-- Witness for C2: one photo whose write fails. -/
theorem saveEntry_photo_failure_aborts_witness :
    ("p1" : String) ≠ "" ∧ ("2024-03-01" : String) ≠ "" ∧ ("09:00" : String) ≠ "" ∧
    (∃ j, j < ([[1, 2, 3]] : List Blob).length ∧ (fun _ => true) j = true) ∧
    ((∃ msg, (saveInspectionEntry ⟨[], [], []⟩ (some "p1") "2024-03-01" "09:00" "note"
        [[1, 2, 3]] 7 7 (fun _ => true)).1 = .error msg) ∧
     (saveInspectionEntry ⟨[], [], []⟩ (some "p1") "2024-03-01" "09:00" "note"
        [[1, 2, 3]] 7 7 (fun _ => true)).2.inspections = ([] : RecordMap (List InspectionEntry))) :=
  ⟨by decide, by decide, by decide, ⟨0, by decide, rfl⟩,
    saveEntry_photo_failure_aborts ⟨[], [], []⟩ "p1" "2024-03-01" "09:00" "note"
      [[1, 2, 3]] 7 7 (fun _ => true) (by decide) (by decide) (by decide)
      ⟨0, by decide, rfl⟩⟩

/-- C9 counterexample: for a key absent from the blob store, the first
resolve returns the placeholder without caching it, so a subsequent resolve
of the same key performs another blob-store read (and, if the blob has
appeared in the meantime, returns a different handle than the first call),
contradicting the claim that once resolve has been called on a key every
subsequent resolve returns the first call's cached handle with no further
blob-store read. -/
theorem resolve_absent_rereads_counterexample :
    (photoURLFromKey (photoURLFromKey [] [] (fun _ => "u") "k").cache []
        (fun _ => "u") "k").reads ≠ [] ∧
    (photoURLFromKey (photoURLFromKey [] [] (fun _ => "u") "k").cache [("k", [7])]
        (fun _ => "u") "k").url ≠ (photoURLFromKey [] [] (fun _ => "u") "k").url := by
  constructor <;> decide

/-- C9 amended: a resolve that finds the key cached returns the cached
handle with no blob-store read and an unchanged cache; after a first
resolve that finds the blob present, the handle is cached and any later
resolve of that key (whatever the blob store then holds) returns it with no
read; resolving a different key never disturbs the cached binding; and
resolving a key absent from both cache and blob store returns the empty
placeholder handle without throwing — but without caching it, so the
no-reread guarantee holds only for keys that resolved successfully. -/
theorem resolve_cache_contract (cache : RecordMap String)
    (blobs blobs2 : RecordMap Blob) (createObjectURL : Blob → String) (key : String) :
    (∀ u, rget cache key = some u →
      photoURLFromKey cache blobs createObjectURL key
        = { url := u, cache := cache, reads := [] }) ∧
    (∀ b, rget cache key = none → rget blobs key = some b →
      rget (photoURLFromKey cache blobs createObjectURL key).cache key
          = some (photoURLFromKey cache blobs createObjectURL key).url ∧
      photoURLFromKey (photoURLFromKey cache blobs createObjectURL key).cache
          blobs2 createObjectURL key
        = { url := (photoURLFromKey cache blobs createObjectURL key).url,
            cache := (photoURLFromKey cache blobs createObjectURL key).cache,
            reads := [] }) ∧
    (∀ key2, key2 ≠ key →
      rget (photoURLFromKey cache blobs createObjectURL key2).cache key
        = rget cache key) ∧
    (rget cache key = none → rget blobs key = none →
      photoURLFromKey cache blobs createObjectURL key
        = { url := "", cache := cache, reads := [key] }) := by
  refine ⟨?_, ?_, ?_, ?_⟩
  · intro u hu
    simp [photoURLFromKey, hu]
  · intro b hc hb
    have h1 : photoURLFromKey cache blobs createObjectURL key
        = { url := createObjectURL b, cache := rset cache key (createObjectURL b),
            reads := [key] } := by
      simp [photoURLFromKey, hc, hb]
    rw [h1]
    have h2 : rget (rset cache key (createObjectURL b)) key
        = some (createObjectURL b) := RecordMap.rget_rset_self ..
    refine ⟨h2, ?_⟩
    simp [photoURLFromKey, h2]
  · intro key2 hk
    unfold photoURLFromKey
    cases hc2 : rget cache key2 with
    | some u => rfl
    | none =>
      cases hb2 : rget blobs key2 with
      | none => rfl
      | some b => exact RecordMap.rget_rset_ne _ _ _ _ (fun h => hk h.symm)
  · intro hc hb
    simp [photoURLFromKey, hc, hb]

/-- Witness for the amended C9: a cached key returns its handle unchanged,
a present key is cached by the first resolve, and an absent key yields the
placeholder. -/
theorem resolve_cache_contract_witness :
    rget [("k", "u0")] "k" = some "u0" ∧
    photoURLFromKey [("k", "u0")] [] (fun _ => "u") "k"
      = { url := "u0", cache := [("k", "u0")], reads := [] } ∧
    rget ([] : RecordMap String) "k" = none ∧
    photoURLFromKey [] [] (fun _ => "u") "k"
      = { url := "", cache := [], reads := ["k"] } :=
  ⟨rfl,
    (resolve_cache_contract [("k", "u0")] [] [] (fun _ => "u") "k").1 "u0" rfl,
    rfl,
    (resolve_cache_contract [] [] [] (fun _ => "u") "k").2.2.2 rfl rfl⟩

theorem digitCh_isDigit (d : Nat) (hd : d < 10) : (digitCh d).isDigit = true := by
  interval_cases d <;> decide

theorem jsNatRepr_chars_digit (n : Nat) :
    ∀ c ∈ (jsNatRepr n).data, c.isDigit = true := by
  intro c hc
  simp only [jsNatRepr] at hc
  rcases List.mem_map.mp hc with ⟨d, hd, rfl⟩
  exact digitCh_isDigit d (decimalDigits_lt_ten n d hd)

theorem ne_slash_of_isDigit {c : Char} (h : c.isDigit = true) : c ≠ '/' := by
  intro he
  rw [he] at h
  exact absurd h (by decide)

theorem splitLastSlash {b b' : List Char} (a a' : List Char)
    (hb : ∀ c ∈ b, c ≠ '/') (hb' : ∀ c ∈ b', c ≠ '/')
    (h : a ++ '/' :: b = a' ++ '/' :: b') : a = a' ∧ b = b' := by
  induction a generalizing a' with
  | nil =>
    cases a' with
    | nil =>
      simp only [List.nil_append] at h
      injection h with h1 h2
      exact ⟨rfl, h2⟩
    | cons x t =>
      exfalso
      simp only [List.nil_append, List.cons_append] at h
      injection h with h1 h2
      exact hb '/' (by rw [h2]; exact List.mem_append_right t (by simp)) rfl
  | cons x t ih =>
    cases a' with
    | nil =>
      exfalso
      simp only [List.cons_append, List.nil_append] at h
      injection h with h1 h2
      exact hb' '/' (by rw [← h2]; exact List.mem_append_right t (by simp)) rfl
    | cons y t' =>
      simp only [List.cons_append] at h
      injection h with h1 h2
      obtain ⟨he, hbb⟩ := ih t' h2
      exact ⟨by rw [h1, he], hbb⟩

/-- Character-list form of the derived blob key. -/
def photoKeyData (p e r : List Char) : List Char :=
  p ++ "/inspections/".data ++ e ++ "/photo-".data ++ r

theorem photoKeyData_shape (p e r : List Char) :
    photoKeyData p e r
      = (p ++ "/inspections".data ++ '/' :: e) ++ '/' :: ("photo-".data ++ r) := by
  have h1 : ("/inspections/" : String).data = ("/inspections" : String).data ++ ['/'] := rfl
  have h2 : ("/photo-" : String).data = '/' :: ("photo-" : String).data := rfl
  unfold photoKeyData
  rw [h1, h2]
  simp

theorem photoKeyData_inj {p1 e1 r1 p2 e2 r2 : List Char}
    (he1 : ∀ c ∈ e1, c ≠ '/') (he2 : ∀ c ∈ e2, c ≠ '/')
    (hr1 : ∀ c ∈ r1, c ≠ '/') (hr2 : ∀ c ∈ r2, c ≠ '/')
    (h : photoKeyData p1 e1 r1 = photoKeyData p2 e2 r2) :
    p1 = p2 ∧ e1 = e2 ∧ r1 = r2 := by
  rw [photoKeyData_shape, photoKeyData_shape] at h
  have hphoto : ∀ c ∈ ("photo-" : String).data, c ≠ '/' := by decide
  have hB1 : ∀ c ∈ ("photo-" : String).data ++ r1, c ≠ '/' := by
    intro c hc
    rcases List.mem_append.mp hc with hc | hc
    · exact hphoto c hc
    · exact hr1 c hc
  have hB2 : ∀ c ∈ ("photo-" : String).data ++ r2, c ≠ '/' := by
    intro c hc
    rcases List.mem_append.mp hc with hc | hc
    · exact hphoto c hc
    · exact hr2 c hc
  obtain ⟨hA, hR⟩ := splitLastSlash _ _ hB1 hB2 h
  have hr : r1 = r2 := List.append_cancel_left hR
  rw [List.append_assoc, List.append_assoc] at hA
  obtain ⟨hP, hE⟩ := splitLastSlash _ _ he1 he2
    (by rw [← List.append_assoc, ← List.append_assoc] at hA; exact hA)
  exact ⟨List.append_cancel_right hP, hE, hr⟩

theorem photoKey_inj {p1 e1 p2 e2 : String} {i1 i2 : Nat}
    (he1 : ∀ c ∈ e1.data, c ≠ '/') (he2 : ∀ c ∈ e2.data, c ≠ '/')
    (h : photoKey p1 e1 i1 = photoKey p2 e2 i2) :
    p1 = p2 ∧ e1 = e2 ∧ i1 = i2 := by
  have hd : photoKeyData p1.data e1.data (jsNatRepr i1).data
      = photoKeyData p2.data e2.data (jsNatRepr i2).data := congrArg String.data h
  obtain ⟨hp, he, hr⟩ := photoKeyData_inj he1 he2
    (jsNatRepr_chars_ne_slash i1) (jsNatRepr_chars_ne_slash i2) hd
  exact ⟨String.ext hp, String.ext he,
    jsNatRepr_injective (String.ext hr)⟩

theorem savePhotos_ok (projectId entryId : String) (photos : List Blob) (i0 : Nat)
    (blobs : RecordMap Blob) (putFails : Nat → Bool)
    (h : ∀ j, j < photos.length → putFails (i0 + j) = false) :
    (savePhotos projectId entryId photos i0 blobs putFails).1
      = some ((List.range photos.length).map (fun j => photoKey projectId entryId (i0 + j))) := by
  induction photos generalizing i0 blobs with
  | nil => simp [savePhotos]
  | cons f rest ih =>
    have h0 : putFails i0 = false := by simpa using h 0 (by simp)
    have hrec := ih (i0 + 1) (rset blobs (photoKey projectId entryId i0) f)
      (fun j hj => by
        rw [show i0 + 1 + j = i0 + (j + 1) by omega]
        exact h (j + 1) (by simpa using hj))
    simp only [savePhotos, h0, Bool.false_eq_true, if_false]
    rcases hsp : savePhotos projectId entryId rest (i0 + 1)
        (rset blobs (photoKey projectId entryId i0) f) putFails with ⟨fst, snd⟩
    rw [hsp] at hrec
    simp only at hrec
    subst hrec
    simp only [List.length_cons, List.range_succ_eq_map, List.map_cons, List.map_map,
      Nat.add_zero]
    refine congrArg some (congrArg (photoKey projectId entryId i0 :: ·) ?_)
    apply List.map_congr_left
    intro j hj
    simp only [Function.comp_apply]
    congr 1
    omega

/-- C6: when entry creation succeeds with N photo files, the recorded entry
carries exactly N blob keys, key i being projectId/inspections/entryId/photo-i
in input order (the entry id being the decimal creation timestamp), the
keys within the entry are pairwise distinct, and the derived keys are
globally unique across the store: distinct (project id, entry id, index)
triples with digit-only entry ids always produce distinct keys. -/
theorem entry_photoKeys_unique (st : AppState) (pid d t n : String)
    (photos : List Blob) (tId tNow : Nat) (putFails : Nat → Bool)
    (hpid : pid ≠ "") (hd : d ≠ "") (ht : t ≠ "")
    (hok : ∀ j, j < photos.length → putFails j = false) :
    (∃ l, rget (saveInspectionEntry st (some pid) d t n photos tId tNow
          putFails).2.inspections pid = some l ∧
      ∃ e ∈ l, e.id = jsNatRepr tId ∧
        e.photoKeys = (List.range photos.length).map (photoKey pid (jsNatRepr tId)) ∧
        e.photoKeys.length = photos.length ∧ e.photoKeys.Nodup) ∧
    (∀ (p1 e1 : String) (i1 : Nat) (p2 e2 : String) (i2 : Nat),
      (∀ c ∈ e1.data, c.isDigit = true) → (∀ c ∈ e2.data, c.isDigit = true) →
      photoKey p1 e1 i1 = photoKey p2 e2 i2 → p1 = p2 ∧ e1 = e2 ∧ i1 = i2) ∧
    (∀ c ∈ (jsNatRepr tId).data, c.isDigit = true) := by
  refine ⟨?_, ?_, jsNatRepr_chars_digit tId⟩
  · have hkeys := savePhotos_ok pid (jsNatRepr tId) photos 0 st.blobs putFails
      (by simpa using hok)
    simp only [saveInspectionEntry, if_neg hpid]
    rw [if_neg (by push_neg; exact ⟨hd, ht⟩)]
    rcases hw : savePhotos pid (jsNatRepr tId) photos 0 st.blobs putFails with ⟨fst, snd⟩
    rw [hw] at hkeys
    simp only at hkeys
    subst hkeys
    refine ⟨_, RecordMap.rget_rset_self .., ?_⟩
    refine ⟨{ id := jsNatRepr tId, date := d, time := t, notes := jsTrim n,
              photoKeys := (List.range photos.length).map
                (fun j => photoKey pid (jsNatRepr tId) (0 + j)),
              createdAt := tNow, updatedAt := tNow }, ?_, rfl, ?_, ?_, ?_⟩
    · unfold sortEntries
      rw [List.mem_mergeSort]
      exact List.mem_append_right _ (by simp)
    · simp only
      apply List.map_congr_left
      intro j hj
      simp
    · simp
    · simp only
      apply List.Nodup.map_on
      · intro x hx y hy hxy
        have := ((photoKey_inj
          (fun c hc => ne_slash_of_isDigit (jsNatRepr_chars_digit tId c hc))
          (fun c hc => ne_slash_of_isDigit (jsNatRepr_chars_digit tId c hc)) hxy).2).2
        omega
      · exact List.nodup_range _
  · intro p1 e1 i1 p2 e2 i2 hd1 hd2 hk
    exact photoKey_inj (fun c hc => ne_slash_of_isDigit (hd1 c hc))
      (fun c hc => ne_slash_of_isDigit (hd2 c hc)) hk

/-- Witness for C6: one photo, project "p1", timestamp 7. -/
theorem entry_photoKeys_unique_witness :
    ("p1" : String) ≠ "" ∧ ("2024-03-01" : String) ≠ "" ∧ ("09:00" : String) ≠ "" ∧
    (∀ j, j < ([[1, 2, 3]] : List Blob).length → (fun _ => false) j = false) ∧
    ((∃ l, rget (saveInspectionEntry ⟨[], [], []⟩ (some "p1") "2024-03-01" "09:00" "note"
          [[1, 2, 3]] 7 7 (fun _ => false)).2.inspections "p1" = some l ∧
      ∃ e ∈ l, e.id = jsNatRepr 7 ∧
        e.photoKeys = (List.range ([[1, 2, 3]] : List Blob).length).map
          (photoKey "p1" (jsNatRepr 7)) ∧
        e.photoKeys.length = ([[1, 2, 3]] : List Blob).length ∧ e.photoKeys.Nodup) ∧
     (∀ (p1 e1 : String) (i1 : Nat) (p2 e2 : String) (i2 : Nat),
       (∀ c ∈ e1.data, c.isDigit = true) → (∀ c ∈ e2.data, c.isDigit = true) →
       photoKey p1 e1 i1 = photoKey p2 e2 i2 → p1 = p2 ∧ e1 = e2 ∧ i1 = i2) ∧
     (∀ c ∈ (jsNatRepr 7).data, c.isDigit = true)) :=
  ⟨by decide, by decide, by decide, fun j hj => rfl,
    entry_photoKeys_unique ⟨[], [], []⟩ "p1" "2024-03-01" "09:00" "note"
      [[1, 2, 3]] 7 7 (fun _ => false) (by decide) (by decide) (by decide)
      (fun j hj => rfl)⟩

/-- Parsed composite key of an entry (zeros when the fields do not parse;
theorems only compare valid entries through it). -/
def chronOf (e : InspectionEntry) : DateTime :=
  match parseDate e.date, parseTime e.time with
  | some (y, m, d), some (h, mi) => ⟨y, m, d, h, mi⟩
  | _, _ => ⟨0, 0, 0, 0, 0⟩

/-- An entry whose date and time fields parse as a valid Date. -/
def validEntry (e : InspectionEntry) : Prop := (dateTimeMs e.date e.time).isSome = true

theorem entry_key_eq {e : InspectionEntry} (h : validEntry e) :
    (chronOf e).valid ∧ msKeyD e = (chronOf e).ms := by
  unfold validEntry at h
  unfold chronOf msKeyD
  rcases hpd : parseDate e.date with _ | ⟨y, m, dd⟩
  · simp [dateTimeMs, hpd] at h
  · rcases hpt : parseTime e.time with _ | ⟨hh, mi⟩
    · simp [dateTimeMs, hpd, hpt] at h
    · simp only [dateTimeMs, hpd, hpt] at h ⊢
      by_cases hv : (validDate y m dd && validTime hh mi) = true
      · rw [if_pos hv] at h ⊢
        simp only [Bool.and_eq_true] at hv
        exact ⟨⟨hv.1, hv.2⟩, rfl⟩
      · rw [if_neg hv] at h
        simp at h

theorem entryLE_trans : ∀ a b c : InspectionEntry,
    entryLE a b → entryLE b c → entryLE a c := by
  intro a b c hab hbc
  simp only [entryLE, decide_eq_true_eq] at *
  omega

theorem entryLE_total : ∀ a b : InspectionEntry, entryLE a b || entryLE b a := by
  intro a b
  simp only [entryLE, Bool.or_eq_true, decide_eq_true_eq]
  omega

/-- C1: a successful entry save stores, for the active project, a list that
is a permutation of the previous list plus the new entry, sorted by the
composite (date, time) key descending (newest first, comparing parsed
calendar dates then times of day), and stable on ties: for every composite
key, the subsequence of entries carrying that key equals the corresponding
subsequence of the input (previous list followed by the new entry), so
equal-key entries keep their original relative order.  All entries are
assumed to carry well-formed date and time fields (the forms only produce
such fields). -/
theorem saveEntry_sorted_stable (st : AppState) (pid d t n : String)
    (photos : List Blob) (tId tNow : Nat) (putFails : Nat → Bool)
    (hpid : pid ≠ "") (hd : d ≠ "") (ht : t ≠ "")
    (hok : ∀ j, j < photos.length → putFails j = false)
    (hvOld : ∀ e ∈ (rget st.inspections pid).getD [], validEntry e)
    (hvNew : (dateTimeMs d t).isSome = true) :
    ∃ out e, rget (saveInspectionEntry st (some pid) d t n photos tId tNow
        putFails).2.inspections pid = some out ∧
      e.date = d ∧ e.time = t ∧ e.id = jsNatRepr tId ∧
      out.Perm ((rget st.inspections pid).getD [] ++ [e]) ∧
      out.Pairwise (fun a b => DateTime.le (chronOf b) (chronOf a)) ∧
      (∀ ds ts : String,
        out.filter (fun x => x.date == ds && x.time == ts)
          = ((rget st.inspections pid).getD [] ++ [e]).filter
              (fun x => x.date == ds && x.time == ts)) := by
  have hkeys := savePhotos_ok pid (jsNatRepr tId) photos 0 st.blobs putFails
    (by simpa using hok)
  simp only [saveInspectionEntry, if_neg hpid]
  rw [if_neg (by push_neg; exact ⟨hd, ht⟩)]
  rcases hw : savePhotos pid (jsNatRepr tId) photos 0 st.blobs putFails with ⟨fst, snd⟩
  rw [hw] at hkeys
  simp only at hkeys
  subst hkeys
  set entry : InspectionEntry :=
    { id := jsNatRepr tId, date := d, time := t, notes := jsTrim n,
      photoKeys := (List.range photos.length).map
        (fun j => photoKey pid (jsNatRepr tId) (0 + j)),
      createdAt := tNow, updatedAt := tNow } with hentry
  set old : List InspectionEntry := (rget st.inspections pid).getD [] with hold
  have hvEntry : validEntry entry := hvNew
  have hvAll : ∀ x ∈ old ++ [entry], validEntry x := by
    intro x hx
    rcases List.mem_append.mp hx with hx | hx
    · exact hvOld x hx
    · rw [List.mem_singleton.mp hx]
      exact hvEntry
  refine ⟨sortEntries (old ++ [entry]), entry, RecordMap.rget_rset_self .., rfl, rfl, rfl,
    List.mergeSort_perm _ _, ?_, ?_⟩
  · have hsorted : (sortEntries (old ++ [entry])).Pairwise (fun a b => entryLE a b) :=
      List.sorted_mergeSort entryLE_trans entryLE_total _
    refine hsorted.imp_of_mem ?_
    intro a b ha hb hab
    have hva : validEntry a := hvAll a (by
      have := List.mem_mergeSort.mp ha
      exact this)
    have hvb : validEntry b := hvAll b (by
      have := List.mem_mergeSort.mp hb
      exact this)
    obtain ⟨hVa, hKa⟩ := entry_key_eq hva
    obtain ⟨hVb, hKb⟩ := entry_key_eq hvb
    have hle : msKeyD b ≤ msKeyD a := by
      simpa [entryLE] using hab
    rw [hKa, hKb] at hle
    exact (DateTime.ms_le_iff hVb hVa).mp hle
  · intro ds ts
    set P : InspectionEntry → Bool := fun x => x.date == ds && x.time == ts with hP
    have hcmem : ∀ x ∈ (old ++ [entry]).filter P, P x = true := by
      intro x hx
      exact (List.mem_filter.mp hx).2
    have hkey : ∀ x, P x = true → msKeyD x = (dateTimeMs ds ts).getD 0 := by
      intro x hx
      simp only [hP, Bool.and_eq_true, beq_iff_eq] at hx
      unfold msKeyD
      rw [hx.1, hx.2]
    have hpair : ((old ++ [entry]).filter P).Pairwise (fun a b => entryLE a b) := by
      apply List.pairwise_of_forall_mem_list
      intro a ha b hb
      simp only [entryLE, decide_eq_true_eq]
      rw [hkey a (hcmem a ha), hkey b (hcmem b hb)]
    have hsub : List.Sublist ((old ++ [entry]).filter P) (sortEntries (old ++ [entry])) :=
      List.sublist_mergeSort entryLE_trans entryLE_total hpair (List.filter_sublist _)
    have hperm : List.Perm ((sortEntries (old ++ [entry])).filter P)
        ((old ++ [entry]).filter P) :=
      (List.mergeSort_perm _ _).filter P
    have hsub2 : List.Sublist (((old ++ [entry]).filter P).filter P)
        ((sortEntries (old ++ [entry])).filter P) := hsub.filter P
    rw [List.filter_eq_self.mpr hcmem] at hsub2
    exact (hsub2.eq_of_length hperm.length_eq.symm).symm

/-- Concrete one-entry starting state used by the C1 witness (spec scenario:
project 10234, existing 09:00 entry, new 14:30 entry on the same date). -/
def c1WitState : AppState :=
  { projects := [],
    inspections := [("10234",
      [{ id := "1", date := "2024-03-01", time := "09:00", notes := "",
         photoKeys := [], createdAt := 1, updatedAt := 1 }])],
    blobs := [] }

/-- Witness for C1 with the concrete scenario of the spec. -/
theorem saveEntry_sorted_stable_witness :
    ("10234" : String) ≠ "" ∧
    (∀ e ∈ (rget c1WitState.inspections "10234").getD [], validEntry e) ∧
    (dateTimeMs "2024-03-01" "14:30").isSome = true ∧
    (∃ out e, rget (saveInspectionEntry c1WitState (some "10234") "2024-03-01" "14:30"
        "note" [] 5 5 (fun _ => false)).2.inspections "10234" = some out ∧
      e.date = "2024-03-01" ∧ e.time = "14:30" ∧ e.id = jsNatRepr 5 ∧
      out.Perm ((rget c1WitState.inspections "10234").getD [] ++ [e]) ∧
      out.Pairwise (fun a b => DateTime.le (chronOf b) (chronOf a)) ∧
      (∀ ds ts : String,
        out.filter (fun x => x.date == ds && x.time == ts)
          = ((rget c1WitState.inspections "10234").getD [] ++ [e]).filter
              (fun x => x.date == ds && x.time == ts))) :=
  ⟨by decide,
   by
    intro e he
    simp [c1WitState, RecordMap.rget] at he
    subst he
    unfold validEntry
    decide,
   by decide,
   saveEntry_sorted_stable c1WitState "10234" "2024-03-01" "14:30" "note" [] 5 5
     (fun _ => false) (by decide) (by decide) (by decide)
     (fun j hj => rfl)
     (by
      intro e he
      simp [c1WitState, RecordMap.rget] at he
      subst he
      unfold validEntry
      decide)
     (by decide)⟩
